import Mathlib

/-
Verification development for the sequential convex optimization (SCO) engine in
src/algorithms/trajopt/implementation/trajopt.py.

The Python code works on dense numpy float64 arrays; here vectors are lists of
rationals and matrices are lists of rows.  Python exceptions (failed asserts,
numpy IndexError/TypeError, the solver error raised by compute_convexified_x)
are modelled by Option/Except: a `none` or `.error` result corresponds to the
Python call raising.  The debugging print() and input() calls in the source are
side effects with no influence on the computed data and are not modelled.  The
external QP solver (common.optimization.qp_solver, not part of the engine) is
abstracted as an oracle `gw : QPInputs → Option Vec`; `some z` models a solved
status with primal solution z, `none` models an unsolved status, in which case
compute_convexified_x raises (trajopt.py lines 441-448).
-/

namespace RePlan

/-- Vectors: dense lists of rationals (numpy 1-d float64 arrays in the source). -/
abbrev Vec := List ℚ

/-- Matrices: lists of rows. -/
abbrev Mat := List Vec

def dot (a b : Vec) : ℚ := (List.zipWith (fun x y => x * y) a b).sum

def vecAdd (a b : Vec) : Vec := List.zipWith (fun x y => x + y) a b

def vecSub (a b : Vec) : Vec := List.zipWith (fun x y => x - y) a b

def scalMul (c : ℚ) (v : Vec) : Vec := v.map (fun x => c * x)

def zeroVec (n : Nat) : Vec := List.replicate n 0

def zeroMat (r c : Nat) : Mat := List.replicate r (zeroVec c)

/-- Matrix-vector product M @ v. -/
def matVecMul (M : Mat) (v : Vec) : Vec := M.map (fun row => dot row v)

def matCol (M : Mat) (j : Nat) : Vec := M.map (fun row => row.getD j 0)

/-- Transpose of a matrix with `nc` columns. -/
def transposeN (nc : Nat) (M : Mat) : Mat := (List.range nc).map (fun j => matCol M j)

/-- Vector-matrix product np.dot(x, M) for M with `nc` columns. -/
def vecMatMul (x : Vec) (M : Mat) (nc : Nat) : Vec :=
  (List.range nc).map (fun j => dot x (matCol M j))

def matAdd (A B : Mat) : Mat := List.zipWith vecAdd A B

def scalMatMul (c : ℚ) (M : Mat) : Mat := M.map (scalMul c)

/-- A length-m row that is zero except for value v at index i. -/
def eyeRow (m i : Nat) (v : ℚ) : Vec := (zeroVec m).set i v

def sumSq (v : Vec) : ℚ := (v.map (fun a => a * a)).sum

/-- Append k zero columns to every row (np.hstack with a zero block). -/
def padCols (k : Nat) (M : Mat) : Mat := M.map (fun row => row ++ List.replicate k (0 : ℚ))

/-- OSQP bounds may be plus or minus infinity. -/
inductive Bnd
  | ninf
  | pinf
  | val (r : ℚ)
  deriving DecidableEq, Repr

/-- Scalar-valued derivative-spliced function (DerivativeSplicedCostFn): value,
gradient and Hessian callbacks. -/
structure CostFn where
  val : Vec → ℚ
  grad : Vec → Vec
  hess : Vec → Mat

/-- Vector-valued derivative-spliced function (DerivativeSplicedConstraintsFn):
value, Jacobian, and the Hessian tensor as a list of n-by-n slices, one slice per
constraint (slice i is Omega[:, :, i] of the source). -/
structure ConstraintsFn where
  val : Vec → Vec
  grad : Vec → Mat
  hess : Vec → List Mat

structure TrajOptParams where
  mu_0 : ℚ
  s_0 : ℚ
  c : ℚ
  tau_plus : ℚ
  tau_minus : ℚ
  k : ℚ
  f_tol : ℚ
  x_tol : ℚ
  c_tol : ℚ
  max_iter : Nat
  second_order_inequalities : Bool := true
  second_order_equalities : Bool := true

structure QPInputs where
  P : Mat
  q : Vec
  A : Mat
  lb : List Bnd
  ub : List Bnd
  deriving DecidableEq, Repr

structure TrajOpt where
  params : TrajOptParams
  cost_fn : CostFn
  linear_inequality_constraints_fn : Option ConstraintsFn := none
  linear_equality_constraints_fn : Option ConstraintsFn := none
  non_linear_inequality_constraints_fn : Option ConstraintsFn := none
  non_linear_equality_constraints_fn : Option ConstraintsFn := none

/-- Shape check: M is an r-by-c matrix. -/
def matShapeOK (r c : Nat) (M : Mat) : Bool :=
  M.length == r && M.all (fun row => row.length == c)

/-- Shape check for a Hessian tensor: m slices, each n-by-n (the source asserts
shape (n, n, m) in the multi-constraint branch; in the single-constraint branch it
asserts ndim == 2 and any further mismatch crashes in the numpy arithmetic). -/
def hessShapeOK (n m : Nat) (H : List Mat) : Bool :=
  H.length == m && H.all (fun sl => matShapeOK n n sl)

/-- Accumulator for W, q, A, lb, ub during convexify_problem. -/
structure AsmAcc where
  W : Mat
  q : Vec
  A : Mat
  lb : List Bnd
  ub : List Bnd

/-- The second-order accumulation of trajopt.py lines 282-297 (and identically
354-360).  In the multi-constraint branch the source iterates `for i in range(n)`
over the Hessian slices, so with n > m the slice access Omega[:, :, i] raises an
IndexError (modelled by none) and with n < m the slices n .. m-1 are never
accumulated. -/
def second_order_update (n : Nat) (x : Vec) (mu : ℚ) (H : List Mat) (m : Nat)
    (W : Mat) (q : Vec) : Option (Mat × Vec) :=
  if m = 1 then
    let om := H.headD []
    some (matAdd W (scalMatMul mu om),
      vecSub q (scalMul ((1 / 2) * mu) (vecMatMul x (matAdd om (transposeN n om)) n)))
  else
    if n ≤ m then
      some ((List.range n).foldl (fun Wq i =>
        let om := H.getD i []
        (matAdd Wq.1 (scalMatMul mu om),
          vecSub Wq.2 (scalMul ((1 / 2) * mu) (vecMatMul x (matAdd om (transposeN n om)) n))))
        (W, q))
    else none

/-- Linear inequality block (trajopt.py lines 154-177).  With a single constraint
the source computes a 0-dim ub and `len(ub_lg)` raises a TypeError, modelled by
none. -/
def lin_ineq_block (fn? : Option ConstraintsFn) (x : Vec) (acc : AsmAcc) : Option AsmAcc :=
  match fn? with
  | none => some acc
  | some fn =>
    let n := x.length
    let v := fn.val x
    let G := fn.grad x
    let m := v.length
    if matShapeOK m n G then
      if m = 1 then none
      else
        let ubr := vecSub (matVecMul G x) v
        some { acc with
          A := acc.A ++ G
          lb := acc.lb ++ List.replicate m Bnd.ninf
          ub := acc.ub ++ ubr.map Bnd.val }
    else none

/-- Linear equality block (trajopt.py lines 179-201). -/
def lin_eq_block (fn? : Option ConstraintsFn) (x : Vec) (acc : AsmAcc) : Option AsmAcc :=
  match fn? with
  | none => some acc
  | some fn =>
    let n := x.length
    let v := fn.val x
    let G := fn.grad x
    let m := v.length
    if matShapeOK m n G then
      let b := vecSub (matVecMul G x) v
      some { acc with
        A := acc.A ++ G
        lb := acc.lb ++ b.map Bnd.val
        ub := acc.ub ++ b.map Bnd.val }
    else none

/-- Nonlinear inequality block (trajopt.py lines 213-297): pad A with m_g slack
columns, append rows [Jacobian | minus identity], ub = Jacobian @ x - g(x),
lb = -inf, then optionally the second-order W/q accumulation.  Returns the new
accumulator and m_g. -/
def nl_ineq_block (fn? : Option ConstraintsFn) (secondOrder : Bool) (x : Vec) (mu : ℚ)
    (acc : AsmAcc) : Option (AsmAcc × Nat) :=
  match fn? with
  | none => some (acc, 0)
  | some fn =>
    let n := x.length
    let v := fn.val x
    let G := fn.grad x
    let m := v.length
    if matShapeOK m n G then
      let A1 := padCols m acc.A
      let rows :=
        if m = 1 then [G.headD [] ++ [(-1 : ℚ)]]
        else List.zipWith (fun row i => row ++ eyeRow m i (-1)) G (List.range m)
      let ubr := vecSub (matVecMul G x) v
      let acc1 : AsmAcc := { acc with
        A := A1 ++ rows
        lb := acc.lb ++ List.replicate m Bnd.ninf
        ub := acc.ub ++ ubr.map Bnd.val }
      if secondOrder then
        let H := fn.hess x
        if hessShapeOK n m H then
          match second_order_update n x mu H m acc1.W acc1.q with
          | some Wq => some ({ acc1 with W := Wq.1, q := Wq.2 }, m)
          | none => none
        else none
      else some (acc1, m)
    else none

/-- Nonlinear equality block (trajopt.py lines 299-360).  The source writes the
slack entries into the Jacobian block itself: for each i it sets A_nlh[i, i] = 1
and A_nlh[i, i + m] = -1 (clobbering Jacobian entries) while the appended slack
columns A_nlh_aux stay all zero.  With m = 1 the Jacobian is a 1-d array and the
2-d write raises an IndexError; with 2 m > n the column index i + m goes out of
range, also an IndexError.  The right-hand side b is computed before the in-place
writes, so it uses the original Jacobian. -/
def nl_eq_block (fn? : Option ConstraintsFn) (secondOrder : Bool) (x : Vec) (mu : ℚ)
    (acc : AsmAcc) : Option (AsmAcc × Nat) :=
  match fn? with
  | none => some (acc, 0)
  | some fn =>
    let n := x.length
    let v := fn.val x
    let G := fn.grad x
    let m := v.length
    if matShapeOK m n G then
      if m = 1 then none
      else if n < 2 * m then none
      else
        let A1 := padCols (2 * m) acc.A
        let b := vecSub (matVecMul G x) v
        let rows := List.zipWith
          (fun row i => ((row.set i 1).set (i + m) (-1)) ++ List.replicate (2 * m) (0 : ℚ))
          G (List.range m)
        let acc1 : AsmAcc := { acc with
          A := A1 ++ rows
          lb := acc.lb ++ b.map Bnd.val
          ub := acc.ub ++ b.map Bnd.val }
        if secondOrder then
          let H := fn.hess x
          if hessShapeOK n m H then
            match second_order_update n x mu H m acc1.W acc1.q with
            | some Wq => some ({ acc1 with W := Wq.1, q := Wq.2 }, m)
            | none => none
          else none
        else some (acc1, m)
    else none

/-- Slack non-negativity block (trajopt.py lines 362-379), including the source's
assert A.shape[1] == num_total_variables. -/
def slack_block (n mg mh : Nat) (acc : AsmAcc) : Option AsmAcc :=
  let nslack := mg + 2 * mh
  let N := n + nslack
  if acc.A.all (fun row => row.length == N) then
    some { acc with
      A := acc.A ++ (List.range nslack).map (fun j => eyeRow N (n + j) 1)
      lb := acc.lb ++ List.replicate nslack (Bnd.val 0)
      ub := acc.ub ++ List.replicate nslack Bnd.pinf }
  else none

/-- Output of the constraint-assembly part of convexify_problem: the accumulated
W and q, the stacked A/lb/ub, and the slack counts m_g and m_h. -/
structure AsmOut where
  W : Mat
  q : Vec
  A : Mat
  lb : List Bnd
  ub : List Bnd
  mg : Nat
  mh : Nat
  deriving DecidableEq, Repr

/-- The constraint-assembly part of convexify_problem (trajopt.py lines 146-379):
W and q start at zero, A/lb/ub empty, and the four constraint blocks plus the
slack block run in source order. -/
def assemble_constraints (T : TrajOpt) (x : Vec) (mu : ℚ) : Option AsmOut :=
  let n := x.length
  let acc0 : AsmAcc := ⟨zeroMat n n, zeroVec n, [], [], []⟩
  match lin_ineq_block T.linear_inequality_constraints_fn x acc0 with
  | none => none
  | some acc1 =>
    match lin_eq_block T.linear_equality_constraints_fn x acc1 with
    | none => none
    | some acc2 =>
      match nl_ineq_block T.non_linear_inequality_constraints_fn
          T.params.second_order_inequalities x mu acc2 with
      | none => none
      | some accmg =>
        match nl_eq_block T.non_linear_equality_constraints_fn
            T.params.second_order_equalities x mu accmg.1 with
        | none => none
        | some accmh =>
          match slack_block n accmg.2 accmh.2 accmh.1 with
          | none => none
          | some acc5 => some ⟨acc5.W, acc5.q, acc5.A, acc5.lb, acc5.ub, accmg.2, accmh.2⟩

/-- convexify_problem (trajopt.py lines 115-417): assert s > 0, assemble the
constraints, then build P with upper-left block W + hess f(x), and
q := q + grad f(x) - 0.5 (hess f(x) + hess f(x)^T) @ x concatenated with mu on
every slack entry.  The final assert len(q) == num_total_variables of the source
is kept as a guard.  A cost-callback shape mismatch would crash in the numpy
arithmetic and is modelled by none. -/
def convexify_problem (T : TrajOpt) (x : Vec) (s mu : ℚ) : Option QPInputs :=
  if s ≤ 0 then none
  else
    match assemble_constraints T x mu with
    | none => none
    | some r =>
      let n := x.length
      let nslack := r.mg + 2 * r.mh
      let N := n + nslack
      let omf := T.cost_fn.grad x
      let Hf := T.cost_fn.hess x
      if omf.length == n && matShapeOK n n Hf then
        let Ptop := matAdd r.W Hf
        let P := (List.range N).map (fun i =>
          if i < n then Ptop.getD i [] ++ List.replicate nslack (0 : ℚ) else zeroVec N)
        let q1 := vecAdd r.q
          (vecSub omf (scalMul (1 / 2) (matVecMul (matAdd Hf (transposeN n Hf)) x)))
        let q := q1 ++ List.replicate nslack mu
        if q.length = N then some ⟨P, q, r.A, r.lb, r.ub⟩ else none
      else none

/-- convexified_cost_fn (trajopt.py lines 105-113). -/
def convexified_cost_fn (T : TrajOpt) (x new_x : Vec) : ℚ :=
  let f0 := T.cost_fn.val x
  let omega := T.cost_fn.grad x
  let W := T.cost_fn.hess x
  let dx := vecSub new_x x
  f0 + dot omega dx + (1 / 2) * dot dx (matVecMul W dx)

/-- is_improvement (trajopt.py lines 450-472): the ratio of true to model
improvement must exceed c. -/
def is_improvement (T : TrajOpt) (x new_x : Vec) : Bool :=
  let true_improve := T.cost_fn.val x - T.cost_fn.val new_x
  let model_improve := T.cost_fn.val x - convexified_cost_fn T x new_x
  decide (true_improve / model_improve > T.params.c)

/-- Euclidean-norm comparison: norm v < t, stated without square roots. -/
def norm_lt (v : Vec) (t : ℚ) : Bool :=
  decide (0 < t) && decide (sumSq v < t * t)

/-- is_converged (trajopt.py lines 474-484). -/
def is_converged (T : TrajOpt) (x new_x : Vec) : Bool :=
  norm_lt (vecSub new_x x) T.params.x_tol ||
    decide (abs (T.cost_fn.val new_x - T.cost_fn.val x) < T.params.f_tol)

/-- are_constraints_satisfied (trajopt.py lines 486-515); np.allclose with
atol = c_tol against zero is componentwise abs bounded by c_tol. -/
def are_constraints_satisfied (T : TrajOpt) (x : Vec) : Bool :=
  (match T.linear_inequality_constraints_fn with
   | none => true
   | some fn => (fn.val x).all (fun a => decide (a ≤ T.params.c_tol))) &&
  (match T.linear_equality_constraints_fn with
   | none => true
   | some fn => (fn.val x).all (fun a => decide (abs a ≤ T.params.c_tol))) &&
  (match T.non_linear_inequality_constraints_fn with
   | none => true
   | some fn => (fn.val x).all (fun a => decide (a ≤ T.params.c_tol))) &&
  (match T.non_linear_equality_constraints_fn with
   | none => true
   | some fn => (fn.val x).all (fun a => decide (abs a ≤ T.params.c_tol)))

/-- The A matrix built (and then discarded) by incorporate_trust_region_and_penalties
(trajopt.py lines 434-437): the input rows followed by n trust rows that are the
identity on the x columns and zero on the slack columns.  The column count
num_total_variables = qp_inputs.A.shape[1] is read off the first row here. -/
def trust_region_A (x : Vec) (qp : QPInputs) : Mat :=
  let n := x.length
  let N := (qp.A.headD []).length
  qp.A ++ (List.range n).map (fun i => eyeRow N i 1)

/-- The lb built by incorporate_trust_region_and_penalties: input lb followed by
x - s componentwise. -/
def trust_region_lb (x : Vec) (qp : QPInputs) (s : ℚ) : List Bnd :=
  qp.lb ++ x.map (fun xi => Bnd.val (xi - s))

/-- The ub built by incorporate_trust_region_and_penalties: input ub followed by
x + s componentwise. -/
def trust_region_ub (x : Vec) (qp : QPInputs) (s : ℚ) : List Bnd :=
  qp.ub ++ x.map (fun xi => Bnd.val (xi + s))

/-- incorporate_trust_region_and_penalties (trajopt.py lines 419-439): the body
computes the spliced A, lb and ub, but the function has no return statement, so
the Python function falls off the end and returns None, modelled by none. -/
def incorporate_trust_region_and_penalties (x : Vec) (qp_inputs : QPInputs) (s mu : ℚ) :
    Option QPInputs :=
  let _A := trust_region_A x qp_inputs
  let _lb := trust_region_lb x qp_inputs s
  let _ub := trust_region_ub x qp_inputs s
  none

/-- TrajOptEntry (trajopt.py lines 55-67). -/
structure TrajOptEntry where
  penalty_iter : Nat
  convexify_iter : Nat
  trust_region_iter : Nat
  min_x : Vec
  cost : ℚ
  trust_region_size : ℚ
  updated_trust_region_size : ℚ
  improvement : Bool
  trust_region_size_below_threshold : Bool
  penalty_factor : ℚ
  updated_penalty_factor : Option ℚ := none
  deriving DecidableEq, Repr

/-- TrajOptResult (trajopt.py lines 70-88). -/
structure TrajOptResult where
  entries : List TrajOptEntry
  deriving DecidableEq, Repr

/-- solution_x (trajopt.py lines 87-88): the min_x of the entry at index -1;
none models the IndexError on an empty trace. -/
def solution_x (r : TrajOptResult) : Option Vec :=
  r.entries.getLast?.map TrajOptEntry.min_x

/-- The mutable locals of solve (trajopt.py lines 521-546) plus the trace. -/
structure SolveState where
  x : Vec
  new_x : Vec
  s : ℚ
  updated_s : ℚ
  mu : ℚ
  improvement : Bool
  entries : List TrajOptEntry
  deriving DecidableEq, Repr

/-- Errors that escape solve: an unsolved QP (the AtiumOptError raised by
compute_convexified_x), a fatal crash inside convexify_problem, or exhaustion of
the fuel bounding the unbounded itertools.count() loops. -/
inductive SolveErr
  | unsolved
  | fatal
  | outOfFuel
  deriving DecidableEq, Repr

/-- Outcome of one trust-region iteration: continue looping, or break out
(carrying the below-threshold flag). -/
inductive TrustStepRes
  | cont (st : SolveState)
  | brk (st : SolveState) (below : Bool)
  deriving DecidableEq, Repr

/-- The QPInputs that solve hands to the QP gateway on a trust-region iteration
(trajopt.py lines 553-561): convexify_problem at the current point, trust size
and penalty.  The trust-region adapter is never invoked, so no box rows are
added. -/
def qp_sent_to_solver (T : TrajOpt) (st : SolveState) : Option QPInputs :=
  convexify_problem T (if st.improvement then st.new_x else st.x) st.updated_s st.mu

/-- The tail of a trust-region iteration after the QP was solved (trajopt.py
lines 569-598): evaluate is_improvement, then either grow the trust size (floor
1.0) and break, or shrink it and break when it falls below x_tol, or record a
trace entry and continue. -/
def trust_step_update (T : TrajOpt) (pIter cIter tIter : Nat) (mu : ℚ)
    (entries : List TrajOptEntry) (x new_x : Vec) (s : ℚ) : TrustStepRes :=
  let cost := T.cost_fn.val new_x
  let improvement := is_improvement T x new_x
  if improvement then
    .brk ⟨x, new_x, s, max (T.params.tau_plus * s) 1, mu, improvement, entries⟩ false
  else
    let updated_s := T.params.tau_minus * s
    if updated_s < T.params.x_tol then
      .brk ⟨x, new_x, s, updated_s, mu, improvement, entries⟩ true
    else
      .cont ⟨x, new_x, s, updated_s, mu, improvement,
        entries ++ [⟨pIter, cIter, tIter, new_x, cost, s, updated_s, improvement,
          false, mu, none⟩]⟩

/-- One iteration of the trust-region loop (trajopt.py lines 551-598): update x
and s, convexify, solve the QP through the gateway, then run the pure tail. -/
def trust_step (T : TrajOpt) (gw : QPInputs → Option Vec) (sizeX pIter cIter tIter : Nat)
    (st : SolveState) : Except SolveErr TrustStepRes :=
  match qp_sent_to_solver T st with
  | none => .error .fatal
  | some qp =>
    match gw qp with
    | none => .error .unsolved
    | some z =>
      .ok (trust_step_update T pIter cIter tIter st.mu st.entries
        (if st.improvement then st.new_x else st.x) (z.take sizeX) st.updated_s)

/-- The trust-region loop (for trust_region_iter in count()), bounded by fuel. -/
def trust_loop (T : TrajOpt) (gw : QPInputs → Option Vec) (sizeX pIter cIter : Nat) :
    Nat → Nat → SolveState → Except SolveErr (SolveState × Bool)
  | 0, _, _ => .error .outOfFuel
  | fuel + 1, tIter, st =>
    match trust_step T gw sizeX pIter cIter tIter st with
    | .error e => .error e
    | .ok (.brk st2 below) => .ok (st2, below)
    | .ok (.cont st2) => trust_loop T gw sizeX pIter cIter fuel (tIter + 1) st2

/-- The convexification loop (for convexify_iter in count()), bounded by fuel:
run the trust-region loop, then exit when the trust region shrank below the
threshold or is_converged holds (trajopt.py lines 549-603). -/
def convexify_loop (T : TrajOpt) (gw : QPInputs → Option Vec) (sizeX pIter fuelT : Nat) :
    Nat → Nat → SolveState → Except SolveErr SolveState
  | 0, _, _ => .error .outOfFuel
  | fuel + 1, cIter, st =>
    match trust_loop T gw sizeX pIter cIter fuelT 0 st with
    | .error e => .error e
    | .ok stb =>
      if stb.2 || is_converged T stb.1.x stb.1.new_x then .ok stb.1
      else convexify_loop T gw sizeX pIter fuelT fuel (cIter + 1) stb.1

/-- Replace the last element of a list (result[-1] = attr.evolve(result[-1], ...)). -/
def updateLast (f : α → α) : List α → List α
  | [] => []
  | [a] => [f a]
  | a :: b :: rest => a :: updateLast f (b :: rest)

/-- The penalty loop (for penalty_iter in range(max_iter), trajopt.py lines
548-624): run the inner loops, stop when the constraints are satisfied at new_x,
otherwise scale mu by k, clear the improvement flag and record the updated
penalty on the last trace entry.  When the range is exhausted the for-else
branch logs and the trace is returned as is. -/
def penalty_loop (T : TrajOpt) (gw : QPInputs → Option Vec) (sizeX fuelC fuelT : Nat) :
    Nat → Nat → SolveState → Except SolveErr (List TrajOptEntry)
  | 0, _, st => .ok st.entries
  | rem + 1, pIter, st =>
    match convexify_loop T gw sizeX pIter fuelT fuelC 0 st with
    | .error e => .error e
    | .ok st2 =>
      if are_constraints_satisfied T st2.new_x then .ok st2.entries
      else
        let mu2 := T.params.k * st2.mu
        let entries2 := updateLast (fun e => { e with updated_penalty_factor := some mu2 })
          st2.entries
        penalty_loop T gw sizeX fuelC fuelT rem (pIter + 1)
          { st2 with mu := mu2, improvement := false, entries := entries2 }

/-- The initial trace entry recorded by solve (trajopt.py lines 531-546). -/
def initial_entry (T : TrajOpt) (x0 : Vec) : TrajOptEntry :=
  ⟨0, 0, 0, x0, T.cost_fn.val x0, T.params.s_0, T.params.s_0, true, false,
    T.params.mu_0, none⟩

/-- solve (trajopt.py lines 517-624), parameterized by the QP gateway oracle and
by fuel for the two unbounded count() loops. -/
def solve (T : TrajOpt) (gw : QPInputs → Option Vec) (fuelC fuelT : Nat) (x0 : Vec) :
    Except SolveErr TrajOptResult :=
  let st0 : SolveState :=
    ⟨x0, x0, T.params.s_0, T.params.s_0, T.params.mu_0, true, [initial_entry T x0]⟩
  (penalty_loop T gw x0.length fuelC fuelT T.params.max_iter 0 st0).map TrajOptResult.mk

/-- Entries recorded by the inner trust-region loop: the projection of a step
outcome to its trace. -/
def resEntries : TrustStepRes → List TrajOptEntry
  | .cont st => st.entries
  | .brk st _ => st.entries

/-- Property of every trace entry appended after the initial one: it is recorded
in the continue branch of the trust-region loop, with the improvement flag false
and the below-threshold flag false. -/
def entryAppendOK (e : TrajOptEntry) : Prop :=
  e.improvement = false ∧ e.trust_region_size_below_threshold = false

/-- Trace invariant maintained by solve: the list is nonempty, its head is the
initial entry (up to the later updated_penalty_factor evolve) and every later
entry satisfies entryAppendOK. -/
def entriesInv (T : TrajOpt) (x0 : Vec) (l : List TrajOptEntry) : Prop :=
  (∃ e t, l = e :: t ∧ e.min_x = x0 ∧ e.cost = T.cost_fn.val x0 ∧
    e.improvement = true ∧ e.penalty_factor = T.params.mu_0) ∧
  ∀ e ∈ l.tail, entryAppendOK e

/-- Modelled from the spec: assembly steps 4 and 5 say the second-order
accumulation runs over each constraint index i in [0, m): add mu times Hessian
slice i to W and subtract 0.5 times mu times x-transposed times (slice plus
slice-transposed) from q.  This is the reference against which the source's
range(n) loop is compared. -/
def spec_second_order_update (n : Nat) (x : Vec) (mu : ℚ) (H : List Mat)
    (W : Mat) (q : Vec) : Mat × Vec :=
  H.foldl (fun Wq om =>
    (matAdd Wq.1 (scalMatMul mu om),
      vecSub Wq.2 (scalMul ((1 / 2) * mu) (vecMatMul x (matAdd om (transposeN n om)) n))))
    (W, q)

/-- One-dimensional quadratic cost x squared, with its gradient and Hessian. -/
def costSq : CostFn :=
  ⟨fun v => v.headD 0 * v.headD 0, fun v => [2 * v.headD 0], fun _ => [[2]]⟩

/-- A concrete parameter bundle used by the witnesses. -/
def pC : TrajOptParams :=
  { mu_0 := 1, s_0 := 1, c := 1 / 10, tau_plus := 3 / 2, tau_minus := 1 / 2, k := 10,
    f_tol := 1 / 100, x_tol := 1 / 10, c_tol := 1 / 100, max_iter := 3 }

/-- A concrete unconstrained problem instance used by the witnesses. -/
def Tc : TrajOpt := { params := pC, cost_fn := costSq }

/-- A gateway oracle that always reports the solved primal vector [1]. -/
def gwc : QPInputs → Option Vec := fun _ => some [1]

/-- A gateway oracle that always reports an unsolved status. -/
def gwFail : QPInputs → Option Vec := fun _ => none

/-- The QPInputs produced by convexify_problem on Tc at x = [1]. -/
def qpc : QPInputs := ⟨[[2]], [0], [], [], []⟩

/-- The assembler output of Tc at x = [1]. -/
def asmC7 : AsmOut := ⟨[[0]], [0], [], [], [], 0, 0⟩

/-- The trace entries of solve Tc gwc on x0 = [1]. -/
def Ec0 : TrajOptEntry := ⟨0, 0, 0, [1], 1, 1, 1, true, false, 1, none⟩

def Ec1 : TrajOptEntry := ⟨0, 0, 0, [1], 1, 1, 1 / 2, false, false, 1, none⟩

def Ec2 : TrajOptEntry := ⟨0, 0, 1, [1], 1, 1 / 2, 1 / 4, false, false, 1, none⟩

def Ec3 : TrajOptEntry := ⟨0, 0, 2, [1], 1, 1 / 4, 1 / 8, false, false, 1, none⟩

/-- The full result of solve Tc gwc 10 10 [1]. -/
def Rc : TrajOptResult := ⟨[Ec0, Ec1, Ec2, Ec3]⟩

/-- The solve state at the top of the first trust-region iteration on Tc. -/
def st0c : SolveState := ⟨[1], [1], 1, 1, 1, true, [Ec0]⟩

/-- Parameters with both second-order options off, for the C1 instance. -/
def pC1 : TrajOptParams :=
  { pC with second_order_inequalities := false, second_order_equalities := false }

/-- Zero cost on four variables. -/
def costZero4 : CostFn := ⟨fun _ => 0, fun _ => [0, 0, 0, 0], fun _ => zeroMat 4 4⟩

/-- Nonlinear equality constraints with two rows and Jacobian
[[5,6,7,8],[9,10,11,12]] at every point. -/
def hFnC1 : ConstraintsFn :=
  ⟨fun _ => [0, 0], fun _ => [[5, 6, 7, 8], [9, 10, 11, 12]], fun _ => []⟩

/-- Problem instance exercising the nonlinear-equality row assembly. -/
def Tc1 : TrajOpt :=
  { params := pC1, cost_fn := costZero4,
    non_linear_equality_constraints_fn := some hFnC1 }

/-- Zero cost on one variable. -/
def costZero1 : CostFn := ⟨fun _ => 0, fun _ => [0], fun _ => [[0]]⟩

/-- Two nonlinear inequality constraints on one variable with Hessian slices
[[2]] and [[40]]. -/
def gFnC3 : ConstraintsFn :=
  ⟨fun _ => [0, 0], fun _ => [[0], [0]], fun _ => [[[2]], [[40]]]⟩

/-- Problem instance exercising the second-order inequality accumulation with
n = 1 and m_g = 2. -/
def Tc3 : TrajOpt :=
  { params := pC, cost_fn := costZero1,
    non_linear_inequality_constraints_fn := some gFnC3 }

/-- A small QPInputs value fed to the trust-region adapter. -/
def qpC2 : QPInputs := ⟨[[2]], [0], [[2, 0]], [Bnd.ninf], [Bnd.val 1]⟩

deriving instance DecidableEq for Except



theorem inv_append (T : TrajOpt) (x0 : Vec) (l : List TrajOptEntry) (e : TrajOptEntry)
    (h : entriesInv T x0 l) (he : entryAppendOK e) : entriesInv T x0 (l ++ [e]) := by
  obtain ⟨⟨e0, t, rfl, h1, h2, h3, h4⟩, htl⟩ := h
  refine ⟨⟨e0, t ++ [e], by simp, h1, h2, h3, h4⟩, ?_⟩
  intro a ha
  simp only [List.cons_append, List.tail_cons] at ha
  rcases List.mem_append.mp ha with hm | hm
  · exact htl a hm
  · rw [List.mem_singleton.mp hm]; exact he

theorem forall_mem_updateLast {α : Type} {P : α → Prop} (f : α → α)
    (hf : ∀ a, P a → P (f a)) :
    ∀ l : List α, (∀ a ∈ l, P a) → ∀ a ∈ updateLast f l, P a := by
  intro l
  induction l with
  | nil => intro _ a ha; simp [updateLast] at ha
  | cons a t ih =>
    cases t with
    | nil =>
      intro h b hb
      simp only [updateLast, List.mem_singleton] at hb
      rw [hb]
      exact hf a (h a (by simp))
    | cons c t2 =>
      intro h b hb
      rw [show updateLast f (a :: c :: t2) = a :: updateLast f (c :: t2) from rfl] at hb
      rcases List.mem_cons.mp hb with rfl | hb2
      · exact h b (by simp)
      · exact ih (fun y hy => h y (List.mem_cons_of_mem a hy)) b hb2

theorem inv_updateLast (T : TrajOpt) (x0 : Vec) (g : ℚ) (l : List TrajOptEntry)
    (h : entriesInv T x0 l) :
    entriesInv T x0
      (updateLast (fun e => { e with updated_penalty_factor := some g }) l) := by
  obtain ⟨⟨e0, t, rfl, h1, h2, h3, h4⟩, htl⟩ := h
  cases t with
  | nil =>
    refine ⟨⟨{ e0 with updated_penalty_factor := some g }, [], rfl, ?_, ?_, ?_, ?_⟩, ?_⟩
    · simpa using h1
    · simpa using h2
    · simpa using h3
    · simpa using h4
    · intro a ha; simp [updateLast] at ha
  | cons b t2 =>
    rw [show updateLast (fun e => { e with updated_penalty_factor := some g }) (e0 :: b :: t2)
      = e0 :: updateLast (fun e => { e with updated_penalty_factor := some g }) (b :: t2)
      from rfl]
    refine ⟨⟨e0, _, rfl, h1, h2, h3, h4⟩, ?_⟩
    simp only [List.tail_cons]
    refine forall_mem_updateLast _ (fun a ha => ⟨?_, ?_⟩) (b :: t2) htl
    · simpa using ha.1
    · simpa using ha.2

theorem trust_step_update_entriesInv (T : TrajOpt) (x0 : Vec) (pIter cIter tIter : Nat)
    (mu : ℚ) (entries : List TrajOptEntry) (x new_x : Vec) (s : ℚ)
    (h : entriesInv T x0 entries) :
    entriesInv T x0 (resEntries (trust_step_update T pIter cIter tIter mu entries x new_x s)) := by
  unfold trust_step_update
  dsimp only
  split
  next himp => simpa [resEntries] using h
  next himp =>
    split
    next hlt => simpa [resEntries] using h
    next hlt =>
      simp only [resEntries]
      refine inv_append T x0 _ _ h ⟨?_, rfl⟩
      simpa using himp

theorem trust_step_entriesInv (T : TrajOpt) (gw : QPInputs → Option Vec)
    (sizeX pIter cIter tIter : Nat) (st : SolveState) (x0 : Vec)
    (h : entriesInv T x0 st.entries) :
    ∀ res, trust_step T gw sizeX pIter cIter tIter st = .ok res →
      entriesInv T x0 (resEntries res) := by
  intro res hres
  unfold trust_step at hres
  cases hq : qp_sent_to_solver T st <;> rw [hq] at hres <;> dsimp only at hres
  case none => simp at hres
  case some qp =>
    cases hg : gw qp <;> rw [hg] at hres <;> dsimp only at hres
    case none => simp at hres
    case some z =>
      cases hres
      exact trust_step_update_entriesInv T x0 pIter cIter tIter st.mu st.entries _ _ _ h



theorem trust_loop_entriesInv (T : TrajOpt) (gw : QPInputs → Option Vec)
    (sizeX pIter cIter : Nat) (x0 : Vec) :
    ∀ fuel tIter st, entriesInv T x0 st.entries →
      ∀ st2 below, trust_loop T gw sizeX pIter cIter fuel tIter st = .ok (st2, below) →
        entriesInv T x0 st2.entries := by
  intro fuel
  induction fuel with
  | zero => intro tIter st h st2 below hl; simp [trust_loop] at hl
  | succ fuel ih =>
    intro tIter st h st2 below hl
    unfold trust_loop at hl
    cases hstep : trust_step T gw sizeX pIter cIter tIter st <;> rw [hstep] at hl
    case error e => simp at hl
    case ok res =>
      have hinv := trust_step_entriesInv T gw sizeX pIter cIter tIter st x0 h res hstep
      cases res with
      | brk st3 b =>
        dsimp only at hl
        cases hl
        exact hinv
      | cont st3 =>
        dsimp only at hl
        exact ih (tIter + 1) st3 hinv st2 below hl

theorem convexify_loop_entriesInv (T : TrajOpt) (gw : QPInputs → Option Vec)
    (sizeX pIter fuelT : Nat) (x0 : Vec) :
    ∀ fuel cIter st, entriesInv T x0 st.entries →
      ∀ st2, convexify_loop T gw sizeX pIter fuelT fuel cIter st = .ok st2 →
        entriesInv T x0 st2.entries := by
  intro fuel
  induction fuel with
  | zero => intro cIter st h st2 hl; simp [convexify_loop] at hl
  | succ fuel ih =>
    intro cIter st h st2 hl
    unfold convexify_loop at hl
    cases hloop : trust_loop T gw sizeX pIter cIter fuelT 0 st <;> rw [hloop] at hl <;>
      dsimp only at hl
    case error e => simp at hl
    case ok stb =>
      have hinv := trust_loop_entriesInv T gw sizeX pIter cIter x0 fuelT 0 st h
        stb.1 stb.2 (by rw [hloop])
      split at hl
      · cases hl; exact hinv
      · exact ih (cIter + 1) stb.1 hinv st2 hl

theorem penalty_loop_entriesInv (T : TrajOpt) (gw : QPInputs → Option Vec)
    (sizeX fuelC fuelT : Nat) (x0 : Vec) :
    ∀ rem pIter st, entriesInv T x0 st.entries →
      ∀ l, penalty_loop T gw sizeX fuelC fuelT rem pIter st = .ok l →
        entriesInv T x0 l := by
  intro rem
  induction rem with
  | zero =>
    intro pIter st h l hl
    unfold penalty_loop at hl
    cases hl
    exact h
  | succ rem ih =>
    intro pIter st h l hl
    unfold penalty_loop at hl
    cases hcl : convexify_loop T gw sizeX pIter fuelT fuelC 0 st <;> rw [hcl] at hl <;>
      dsimp only at hl
    case error e => simp at hl
    case ok st2 =>
      have hinv := convexify_loop_entriesInv T gw sizeX pIter fuelT x0 fuelC 0 st h st2 hcl
      split at hl
      · cases hl; exact hinv
      · exact ih (pIter + 1) _ (inv_updateLast T x0 _ st2.entries hinv) l hl

theorem solve_entriesInv (T : TrajOpt) (gw : QPInputs → Option Vec) (fuelC fuelT : Nat)
    (x0 : Vec) (r : TrajOptResult) (h : solve T gw fuelC fuelT x0 = .ok r) :
    entriesInv T x0 r.entries := by
  unfold solve at h
  dsimp only at h
  cases hpl : penalty_loop T gw x0.length fuelC fuelT T.params.max_iter 0
      ⟨x0, x0, T.params.s_0, T.params.s_0, T.params.mu_0, true, [initial_entry T x0]⟩ <;>
    rw [hpl] at h <;> simp [Except.map] at h
  case ok l =>
    have hinit : entriesInv T x0 [initial_entry T x0] :=
      ⟨⟨initial_entry T x0, [], rfl, rfl, rfl, rfl, rfl⟩, by simp⟩
    have hres := penalty_loop_entriesInv T gw x0.length fuelC fuelT x0 T.params.max_iter 0
      _ hinit l hpl
    rw [← h]
    exact hres



theorem getLast?_cons_exists {α : Type} : ∀ (t : List α) (e : α), ∃ a, (e :: t).getLast? = some a := by
  intro t
  induction t with
  | nil => intro e; exact ⟨e, rfl⟩
  | cons b t2 ih =>
    intro e
    obtain ⟨a, ha⟩ := ih b
    exact ⟨a, by rw [List.getLast?_cons_cons]; exact ha⟩

/-- Claim C9: for every run of solve that returns a result, every trace entry
after the initial one was recorded on a trust-region iteration whose candidate
was rejected and whose shrunk trust size stayed at or above x_tol: it has
improvement false and trust_region_size_below_threshold false. -/
theorem claim_C9_thm (T : TrajOpt) (gw : QPInputs → Option Vec) (fuelC fuelT : Nat)
    (x0 : Vec) (r : TrajOptResult) (h : solve T gw fuelC fuelT x0 = .ok r) :
    ∀ e ∈ r.entries.tail, e.improvement = false ∧
      e.trust_region_size_below_threshold = false :=
  (solve_entriesInv T gw fuelC fuelT x0 r h).2

theorem claim_C9_witness :
    solve Tc gwc 10 10 [1] = .ok Rc ∧
    ∀ e ∈ Rc.entries.tail, e.improvement = false ∧
      e.trust_region_size_below_threshold = false :=
  ⟨by with_unfolding_all decide, claim_C9_thm Tc gwc 10 10 [1] Rc (by with_unfolding_all decide)⟩

/-- Claim C10: every result returned by solve contains at least one trace
entry; the first one has min_x equal to the initial guess, cost the cost
function at the initial guess, improvement true and penalty_factor mu_0, and
solution_x on the result always succeeds. -/
theorem claim_C10_thm (T : TrajOpt) (gw : QPInputs → Option Vec) (fuelC fuelT : Nat)
    (x0 : Vec) (r : TrajOptResult) (h : solve T gw fuelC fuelT x0 = .ok r) :
    ∃ e t, r.entries = e :: t ∧ e.min_x = x0 ∧ e.cost = T.cost_fn.val x0 ∧
      e.improvement = true ∧ e.penalty_factor = T.params.mu_0 ∧
      ∃ v, solution_x r = some v := by
  obtain ⟨⟨e, t, hl, h1, h2, h3, h4⟩, _⟩ := solve_entriesInv T gw fuelC fuelT x0 r h
  refine ⟨e, t, hl, h1, h2, h3, h4, ?_⟩
  unfold solution_x
  rw [hl]
  obtain ⟨a, ha⟩ := getLast?_cons_exists t e
  exact ⟨a.min_x, by rw [ha]; rfl⟩

theorem claim_C10_witness :
    solve Tc gwc 10 10 [1] = .ok Rc ∧
    (∃ e t, Rc.entries = e :: t ∧ e.min_x = [1] ∧ e.cost = Tc.cost_fn.val [1] ∧
      e.improvement = true ∧ e.penalty_factor = Tc.params.mu_0 ∧
      ∃ v, solution_x Rc = some v) :=
  ⟨by with_unfolding_all decide, claim_C10_thm Tc gwc 10 10 [1] Rc (by with_unfolding_all decide)⟩




theorem drop_append_of_length {α : Type} (l1 l2 : List α) (n : Nat) (h : l1.length = n) :
    (l1 ++ l2).drop n = l2 := by rw [← h, List.drop_left]

/-- Claim C5: the QPInputs assembled for the solver do not depend on the trust
size: for any two positive trust sizes s1 and s2, convexify_problem yields
identical outputs (identical P, q, A, lb, ub), and the QP the driver hands to
the solver is exactly this convexify_problem output, with no trust-region box
rows added. -/
theorem claim_C5_thm (T : TrajOpt) (x : Vec) (mu s1 s2 : ℚ) (st : SolveState)
    (h1 : 0 < s1) (h2 : 0 < s2) (hs : st.updated_s = s1) :
    convexify_problem T x s1 mu = convexify_problem T x s2 mu ∧
    qp_sent_to_solver T st =
      convexify_problem T (if st.improvement then st.new_x else st.x) s2 st.mu := by
  have key : ∀ (y : Vec) (m : ℚ), convexify_problem T y s1 m = convexify_problem T y s2 m := by
    intro y m
    unfold convexify_problem
    rw [if_neg (not_le.mpr h1), if_neg (not_le.mpr h2)]
  refine ⟨key x mu, ?_⟩
  unfold qp_sent_to_solver
  rw [hs]
  exact key _ _

theorem claim_C5_witness :
    (0 : ℚ) < 1 ∧ (0 : ℚ) < 2 ∧ st0c.updated_s = 1 ∧
    (convexify_problem Tc [1] 1 1 = convexify_problem Tc [1] 2 1 ∧
      qp_sent_to_solver Tc st0c =
        convexify_problem Tc (if st0c.improvement then st0c.new_x else st0c.x) 2 st0c.mu) :=
  ⟨by norm_num, by norm_num, rfl, claim_C5_thm Tc [1] 1 1 2 st0c (by norm_num) (by norm_num) rfl⟩

/-- Claim C7: in every QPInputs produced by convexify_problem, the final linear
cost q is the accumulated constraint contribution plus the cost gradient minus
0.5 (hess f + hess f transposed) @ x, concatenated with the penalty mu on every
slack entry; its length is n + m_g + 2 m_h and each of the last m_g + 2 m_h
entries is exactly mu. -/
theorem claim_C7_thm (T : TrajOpt) (x : Vec) (s mu : ℚ) (r : AsmOut) (qp : QPInputs)
    (hr : assemble_constraints T x mu = some r)
    (hq : convexify_problem T x s mu = some qp) :
    qp.q = vecAdd r.q (vecSub (T.cost_fn.grad x)
        (scalMul (1 / 2) (matVecMul (matAdd (T.cost_fn.hess x)
          (transposeN x.length (T.cost_fn.hess x))) x)))
      ++ List.replicate (r.mg + 2 * r.mh) mu ∧
    qp.q.length = x.length + (r.mg + 2 * r.mh) ∧
    ∀ a ∈ qp.q.drop x.length, a = mu := by
  unfold convexify_problem at hq
  split at hq
  · simp at hq
  · rw [hr] at hq
    dsimp only at hq
    split at hq
    · split at hq
      next hlen =>
        cases hq
        refine ⟨rfl, hlen, ?_⟩
        intro a ha
        have hpre : (vecAdd r.q (vecSub (T.cost_fn.grad x)
            (scalMul (1 / 2) (matVecMul (matAdd (T.cost_fn.hess x)
              (transposeN x.length (T.cost_fn.hess x))) x)))).length = x.length := by
          have hx := hlen
          simp only [List.length_append, List.length_replicate] at hx
          omega
        dsimp only at ha
        rw [drop_append_of_length _ _ _ hpre] at ha
        exact List.eq_of_mem_replicate ha
      next hlen => simp at hq
    · simp at hq

theorem claim_C7_witness :
    assemble_constraints Tc [1] 1 = some asmC7 ∧
    convexify_problem Tc [1] 1 1 = some qpc ∧
    (qpc.q = vecAdd asmC7.q (vecSub (Tc.cost_fn.grad [1])
        (scalMul (1 / 2) (matVecMul (matAdd (Tc.cost_fn.hess [1])
          (transposeN 1 (Tc.cost_fn.hess [1]))) [1])))
      ++ List.replicate (asmC7.mg + 2 * asmC7.mh) 1 ∧
    qpc.q.length = 1 + (asmC7.mg + 2 * asmC7.mh) ∧
    ∀ a ∈ qpc.q.drop 1, a = 1) :=
  ⟨by with_unfolding_all decide, by with_unfolding_all decide,
    claim_C7_thm Tc [1] 1 1 asmC7 qpc (by with_unfolding_all decide) (by with_unfolding_all decide)⟩

/-- Claim C8: when the model improvement f(x) - convexified cost at new_x is
nonzero, is_improvement returns true exactly when the ratio of true improvement
to model improvement is strictly greater than the parameter c, and returns false
when that ratio is at most c. -/
theorem claim_C8_thm (T : TrajOpt) (x new_x : Vec)
    (h : T.cost_fn.val x - convexified_cost_fn T x new_x ≠ 0) :
    (is_improvement T x new_x = true ↔
      (T.cost_fn.val x - T.cost_fn.val new_x) /
        (T.cost_fn.val x - convexified_cost_fn T x new_x) > T.params.c) ∧
    ((T.cost_fn.val x - T.cost_fn.val new_x) /
        (T.cost_fn.val x - convexified_cost_fn T x new_x) ≤ T.params.c →
      is_improvement T x new_x = false) := by
  unfold is_improvement
  dsimp only
  constructor
  · exact decide_eq_true_iff
  · intro hle
    simp only [decide_eq_false_iff_not, not_lt]
    exact hle

theorem claim_C8_witness :
    Tc.cost_fn.val [0] - convexified_cost_fn Tc [0] [1] ≠ 0 ∧
    ((is_improvement Tc [0] [1] = true ↔
      (Tc.cost_fn.val [0] - Tc.cost_fn.val [1]) /
        (Tc.cost_fn.val [0] - convexified_cost_fn Tc [0] [1]) > Tc.params.c) ∧
     ((Tc.cost_fn.val [0] - Tc.cost_fn.val [1]) /
        (Tc.cost_fn.val [0] - convexified_cost_fn Tc [0] [1]) ≤ Tc.params.c →
      is_improvement Tc [0] [1] = false)) :=
  ⟨by with_unfolding_all decide, claim_C8_thm Tc [0] [1] (by with_unfolding_all decide)⟩



/-- Claim C6: in every trust-region iteration of solve, if the candidate is an
improvement the next trust size is max(tau_plus times s, 1.0) and the loop
breaks with the below-threshold flag false; otherwise the next trust size is
tau_minus times s and the loop breaks with the flag true exactly when that
value is below x_tol, continuing otherwise. -/
theorem claim_C6_thm (T : TrajOpt) (gw : QPInputs → Option Vec)
    (sizeX pIter cIter tIter : Nat) (st : SolveState) (qp : QPInputs) (z : Vec)
    (hqp : qp_sent_to_solver T st = some qp) (hz : gw qp = some z) :
    (is_improvement T (if st.improvement then st.new_x else st.x) (z.take sizeX) = true →
      ∃ st2, trust_step T gw sizeX pIter cIter tIter st = .ok (.brk st2 false) ∧
        st2.updated_s = max (T.params.tau_plus * st.updated_s) 1) ∧
    (is_improvement T (if st.improvement then st.new_x else st.x) (z.take sizeX) = false →
      (T.params.tau_minus * st.updated_s < T.params.x_tol →
        ∃ st2, trust_step T gw sizeX pIter cIter tIter st = .ok (.brk st2 true) ∧
          st2.updated_s = T.params.tau_minus * st.updated_s) ∧
      (¬ T.params.tau_minus * st.updated_s < T.params.x_tol →
        ∃ st2, trust_step T gw sizeX pIter cIter tIter st = .ok (.cont st2) ∧
          st2.updated_s = T.params.tau_minus * st.updated_s)) := by
  have hstep : trust_step T gw sizeX pIter cIter tIter st
      = .ok (trust_step_update T pIter cIter tIter st.mu st.entries
        (if st.improvement then st.new_x else st.x) (z.take sizeX) st.updated_s) := by
    unfold trust_step
    rw [hqp]
    dsimp only
    rw [hz]
  constructor
  · intro himp
    rw [hstep]
    unfold trust_step_update
    dsimp only
    rw [himp, if_pos rfl]
    exact ⟨_, rfl, rfl⟩
  · intro himp
    constructor
    · intro hlt
      rw [hstep]
      unfold trust_step_update
      dsimp only
      rw [himp, if_neg (by simp), if_pos hlt]
      exact ⟨_, rfl, rfl⟩
    · intro hnlt
      rw [hstep]
      unfold trust_step_update
      dsimp only
      rw [himp, if_neg (by simp), if_neg hnlt]
      exact ⟨_, rfl, rfl⟩

theorem claim_C6_witness :
    qp_sent_to_solver Tc st0c = some qpc ∧ gwc qpc = some [1] ∧
    ((is_improvement Tc (if st0c.improvement then st0c.new_x else st0c.x)
        (([1] : Vec).take 1) = true →
      ∃ st2, trust_step Tc gwc 1 0 0 0 st0c = .ok (.brk st2 false) ∧
        st2.updated_s = max (Tc.params.tau_plus * st0c.updated_s) 1) ∧
    (is_improvement Tc (if st0c.improvement then st0c.new_x else st0c.x)
        (([1] : Vec).take 1) = false →
      (Tc.params.tau_minus * st0c.updated_s < Tc.params.x_tol →
        ∃ st2, trust_step Tc gwc 1 0 0 0 st0c = .ok (.brk st2 true) ∧
          st2.updated_s = Tc.params.tau_minus * st0c.updated_s) ∧
      (¬ Tc.params.tau_minus * st0c.updated_s < Tc.params.x_tol →
        ∃ st2, trust_step Tc gwc 1 0 0 0 st0c = .ok (.cont st2) ∧
          st2.updated_s = Tc.params.tau_minus * st0c.updated_s))) :=
  ⟨by with_unfolding_all decide, rfl,
    claim_C6_thm Tc gwc 1 0 0 0 st0c qpc [1] (by with_unfolding_all decide) rfl⟩

/-- Claim C4 (amended): when the QP gateway reports an unsolved status on the
first inner iteration, the recoverable solver error raised by
compute_convexified_x propagates out of solve; no result and no trace are
returned to the caller. -/
theorem claim_C4_amended_thm (T : TrajOpt) (gw : QPInputs → Option Vec)
    (fuelC fuelT M : Nat) (x0 : Vec) (qp : QPInputs)
    (hM : T.params.max_iter = M + 1)
    (hqp : convexify_problem T x0 T.params.s_0 T.params.mu_0 = some qp)
    (hgw : gw qp = none) :
    solve T gw (fuelC + 1) (fuelT + 1) x0 = .error .unsolved := by
  have hstep : trust_step T gw x0.length 0 0 0
      ⟨x0, x0, T.params.s_0, T.params.s_0, T.params.mu_0, true, [initial_entry T x0]⟩
      = .error .unsolved := by
    unfold trust_step
    have hq : qp_sent_to_solver T
        ⟨x0, x0, T.params.s_0, T.params.s_0, T.params.mu_0, true, [initial_entry T x0]⟩
        = some qp := by
      unfold qp_sent_to_solver
      simpa using hqp
    rw [hq]
    dsimp only
    rw [hgw]
  have hloop : trust_loop T gw x0.length 0 0 (fuelT + 1) 0
      ⟨x0, x0, T.params.s_0, T.params.s_0, T.params.mu_0, true, [initial_entry T x0]⟩
      = .error .unsolved := by
    unfold trust_loop
    rw [hstep]
  have hconv : convexify_loop T gw x0.length 0 (fuelT + 1) (fuelC + 1) 0
      ⟨x0, x0, T.params.s_0, T.params.s_0, T.params.mu_0, true, [initial_entry T x0]⟩
      = .error .unsolved := by
    unfold convexify_loop
    rw [hloop]
  have hpen : penalty_loop T gw x0.length (fuelC + 1) (fuelT + 1) (M + 1) 0
      ⟨x0, x0, T.params.s_0, T.params.s_0, T.params.mu_0, true, [initial_entry T x0]⟩
      = .error .unsolved := by
    unfold penalty_loop
    rw [hconv]
  unfold solve
  dsimp only
  rw [hM, hpen]
  rfl

/-- Claim C4 counterexample: with a gateway that reports unsolved, solve
propagates the solver error instead of converting it into a failed-solve
outcome carrying the trace: the run ends in Except.error, not in an ok result
holding the entries accumulated so far. -/
theorem claim_C4_counterexample :
    solve Tc gwFail 5 5 [1] = .error .unsolved ∧
    (solve Tc gwFail 5 5 [1]).toOption = none := by
  constructor
  · with_unfolding_all decide
  · with_unfolding_all decide

theorem claim_C4_witness :
    Tc.params.max_iter = 2 + 1 ∧
    convexify_problem Tc [1] Tc.params.s_0 Tc.params.mu_0 = some qpc ∧
    gwFail qpc = none ∧
    solve Tc gwFail 5 5 [1] = .error .unsolved :=
  ⟨rfl, by with_unfolding_all decide, rfl,
    claim_C4_amended_thm Tc gwFail 4 4 2 [1] qpc rfl (by with_unfolding_all decide) rfl⟩

/-- Claim C1 evaluated on the code: with m_h = 2 nonlinear equality constraints
and Jacobian rows [5,6,7,8] and [9,10,11,12], the appended equality rows of A
are [1,6,-1,8 | 0,0,0,0] and [9,1,11,-1 | 0,0,0,0]: the source writes the plus
and minus ones into columns i and i + m_h of the Jacobian block itself and
leaves every slack column zero, instead of the claimed
[Jacobian | -I on t_h | +I on s_h] layout.  The bounds lb = ub = Jacobian @ x
minus h(x) are as claimed. -/
theorem claim_C1_thm :
    (convexify_problem Tc1 [0, 0, 0, 0] 1 1).map QPInputs.A =
      some [[1, 6, -1, 8, 0, 0, 0, 0], [9, 1, 11, -1, 0, 0, 0, 0],
        [0, 0, 0, 0, 1, 0, 0, 0], [0, 0, 0, 0, 0, 1, 0, 0],
        [0, 0, 0, 0, 0, 0, 1, 0], [0, 0, 0, 0, 0, 0, 0, 1]] ∧
    (convexify_problem Tc1 [0, 0, 0, 0] 1 1).map QPInputs.lb =
      some [Bnd.val 0, Bnd.val 0, Bnd.val 0, Bnd.val 0, Bnd.val 0, Bnd.val 0] ∧
    ([1, 6, -1, 8, 0, 0, 0, 0] : Vec) ≠ [5, 6, 7, 8, -1, 0, 1, 0] ∧
    ([9, 1, 11, -1, 0, 0, 0, 0] : Vec) ≠ [9, 10, 11, 12, 0, -1, 0, 1] := by
  refine ⟨?_, ?_, ?_, ?_⟩ <;> with_unfolding_all decide

/-- Claim C3 evaluated on the code: with n = 1 and m_g = 2 Hessian slices [[2]]
and [[40]] at x = [3] and mu = 1, the source loop runs over range(n) = range(1)
and accumulates only slice 0, giving q head entry -6, whereas the accumulation
over all m_g slices prescribed by the spec gives -126. -/
theorem claim_C3_thm :
    (convexify_problem Tc3 [3] 1 1).map QPInputs.q = some [-6, 1, 1] ∧
    (spec_second_order_update 1 [3] 1 [[[2]], [[40]]] (zeroMat 1 1) (zeroVec 1)).2
      = [-126] ∧
    ((-6 : ℚ) ≠ -126) := by
  refine ⟨?_, ?_, ?_⟩ <;> with_unfolding_all decide

/-- Claim C2 evaluated on the code: incorporate_trust_region_and_penalties
builds the spliced A (identity on the x columns, zero on the slack columns) and
the bounds x - s and x + s, but the function body has no return statement, so
the call returns None instead of the new QPInputs. -/
theorem claim_C2_thm :
    incorporate_trust_region_and_penalties [0] qpC2 1 1 = none ∧
    trust_region_A [0] qpC2 = [[2, 0], [1, 0]] ∧
    trust_region_lb [0] qpC2 1 = [Bnd.ninf, Bnd.val (-1)] ∧
    trust_region_ub [0] qpC2 1 = [Bnd.val 1, Bnd.val 1] := by
  refine ⟨rfl, ?_, ?_, ?_⟩ <;> with_unfolding_all decide


end RePlan
